import Mathlib

/-!
Verification of the PDF preprocessing pipeline of `Preprocess.py`
(`PDFToMarkdownConverter` and `FolderPDFConverter`).

The pure page-layout pipeline (`extract_blocks`, `classify_columns`,
`sort_blocks_reading_order`, `join_block_texts`, and the page loop of
`process`) is embedded as executable Lean functions over exact rational
coordinates.  The effectful parts (opening a document with `fitz.open`,
querying a page's blocks, and writing the output file) are embedded as
explicit outcome parameters: each external call either yields its value or
raises, and a raised error propagates exactly as the Python exception does.
-/

namespace Preprocess

/-- Python's `str.strip()`: remove leading and trailing whitespace.
Embedded directly on the character list so that it evaluates by `decide`. -/
def pyStrip (s : String) : String :=
  ⟨((s.data.dropWhile Char.isWhitespace).reverse.dropWhile Char.isWhitespace).reverse⟩

/-- One block of `page.get_text("blocks")` as consumed by `extract_blocks`:
the 7-tuple `(x0, y0, x1, y1, text, block_no, block_type)`.  Coordinates are
modelled as exact rationals; `block_no` (`b[5]`) may be `None`; `block_type`
(`b[6]`) is `0` for a text block and `1` for an image or other element. -/
structure Block where
  x0 : ℚ
  y0 : ℚ
  x1 : ℚ
  y1 : ℚ
  text : String
  block_no : Option Nat
  block_type : Nat
deriving DecidableEq

/-- One physical page as provided by the decoding collaborator: its width
(`page.rect.width`), the raw list returned by `page.get_text("blocks")`, and
the whole-page text `page.get_text()`. -/
structure Page where
  width : ℚ
  blocks : List Block
  fullText : String
deriving DecidableEq

/-- `PDFToMarkdownConverter.extract_blocks`, applied to the raw block list:
`[b for b in blocks if b[5] is not None and b[6] == 0 and b[4].strip()]`. -/
def extract_blocks (rawBlocks : List Block) : List Block :=
  rawBlocks.filter (fun b => b.block_no.isSome && b.block_type == 0 && pyStrip b.text != "")

/-- The `for block in blocks` loop of `classify_columns`, threading the two
accumulators `left_blocks` and `right_blocks`. -/
def classifyLoop (page_width : ℚ) : List Block → List Block → List Block → List Block × List Block
  | [], left_blocks, right_blocks => (left_blocks, right_blocks)
  | b :: rest, left_blocks, right_blocks =>
    if (b.x0 + b.x1) / 2 < page_width / 2 then
      classifyLoop page_width rest (left_blocks ++ [b]) right_blocks
    else
      classifyLoop page_width rest left_blocks (right_blocks ++ [b])

/-- `PDFToMarkdownConverter.classify_columns`: start with empty
`left_blocks`/`right_blocks` and run the loop. -/
def classify_columns (blocks : List Block) (page_width : ℚ) : List Block × List Block :=
  classifyLoop page_width blocks [] []

/-- The comparison induced by `key=lambda b: (b[1], b[0])` in
`sort_blocks_reading_order`: lexicographic order on `(y0, x0)`. -/
def blockLe (a b : Block) : Bool :=
  decide (a.y0 < b.y0 ∨ (a.y0 = b.y0 ∧ a.x0 ≤ b.x0))

/-- `PDFToMarkdownConverter.sort_blocks_reading_order`:
`sorted(blocks, key=lambda b: (b[1], b[0]))`.  Python's `sorted` is a stable
sort by the key; it is embedded as the stable merge sort. -/
def sort_blocks_reading_order (blocks : List Block) : List Block :=
  blocks.mergeSort blockLe

/-- Python's `"\n".join(texts)`. -/
def joinNewline : List String → String
  | [] => ""
  | [t] => t
  | t :: rest => t ++ "\n" ++ joinNewline rest

/-- `PDFToMarkdownConverter.join_block_texts`:
`texts = [b[4].strip() for b in blocks if b[4].strip()]` then
`"\n".join(texts)`. -/
def join_block_texts (blocks : List Block) : String :=
  joinNewline ((blocks.filter (fun b => pyStrip b.text != "")).map (fun b => pyStrip b.text))

/-- The f-string `f"## ページ {page_number}\n\n{body}\n\n"` used by
`process` for both the two-column and the single-column branches. -/
def formatPage (page_number : Nat) (body : String) : String :=
  "## ページ " ++ toString page_number ++ "\n\n" ++ body ++ "\n\n"

/-- The mutable converter state during `process`: the accumulated `md_text`
and the `page_number` counter (initialised to `""` and `1` in `__init__`). -/
structure ConvState where
  md_text : String
  page_number : Nat
deriving DecidableEq

/-- The body of the `for page in self.doc` loop of `process`: extract the
page's blocks, classify them against the page width, and append either two
formatted logical pages (two-column branch) or one (single-column branch). -/
def processPageStep (st : ConvState) (page : Page) : ConvState :=
  let blocks := extract_blocks page.blocks
  let lr := classify_columns blocks page.width
  if lr.1.length ≥ 2 ∧ lr.2.length ≥ 2 then
    let left_text := join_block_texts (sort_blocks_reading_order lr.1)
    let right_text := join_block_texts (sort_blocks_reading_order lr.2)
    ⟨st.md_text ++ formatPage st.page_number left_text
        ++ formatPage (st.page_number + 1) right_text,
      st.page_number + 2⟩
  else
    ⟨st.md_text ++ formatPage st.page_number (pyStrip page.fullText),
      st.page_number + 1⟩

/-- The whole page loop of `process` on a document whose pages all decode:
fold the loop body over the pages from the initial converter state. -/
def processPages (pages : List Page) : ConvState :=
  pages.foldl processPageStep ⟨"", 1⟩

/-- The logical pages one physical page emits, as `(number, body)` pairs,
together with the advanced counter: the same branch as `processPageStep`,
recording the pages instead of the formatted concatenation. -/
def pageLogical (page : Page) (n : Nat) : List (Nat × String) × Nat :=
  let lr := classify_columns (extract_blocks page.blocks) page.width
  if lr.1.length ≥ 2 ∧ lr.2.length ≥ 2 then
    ([(n, join_block_texts (sort_blocks_reading_order lr.1)),
      (n + 1, join_block_texts (sort_blocks_reading_order lr.2))], n + 2)
  else
    ([(n, pyStrip page.fullText)], n + 1)

/-- All logical pages of a page list, numbering from counter value `n`. -/
def logicalPagesFrom : List Page → Nat → List (Nat × String)
  | [], _ => []
  | pg :: rest, n => (pageLogical pg n).1 ++ logicalPagesFrom rest (pageLogical pg n).2

/-- All logical pages of a document, numbering from the initial counter 1. -/
def logicalPages (pages : List Page) : List (Nat × String) :=
  logicalPagesFrom pages 1

/-- Concatenation of a list of strings, in order. -/
def concatAll : List String → String
  | [] => ""
  | s :: rest => s ++ concatAll rest

/-- The three fatal error kinds the pipeline can raise: `fitz.open` failing
in `__init__`, `page.get_text("blocks")` failing inside the page loop, and
the final file write failing. -/
inductive PDFError
  | openError
  | fragmentError
  | writeError
deriving DecidableEq

/-- Outcome of `with open(path, "w", encoding="utf-8") as f: f.write(text)`:
success, failure of `open` itself, or failure of the write after a
successful `open`. -/
inductive WriteOutcome
  | ok
  | openFail
  | writeFail
deriving DecidableEq

/-- The output directory, as a file-name-to-content association list. -/
abbrev FS := List (String × String)

/-- Create or overwrite one file. -/
def setFile (fs : FS) (name content : String) : FS :=
  (name, content) :: fs.filter (fun p => p.1 != name)

/-- Whether a file of the given name exists in the output directory. -/
def fileExists (fs : FS) (name : String) : Bool :=
  fs.any (fun p => p.1 == name)

/-- `with open(path, "w", encoding="utf-8") as f: f.write(content)`.
Python's `"w"` mode truncates or creates the file as soon as `open`
succeeds; if `open` itself fails no file is created, while if the
subsequent write fails the truncated file remains on disk (its exact
partial content is OS-dependent; the model keeps the truncated empty file,
the guaranteed lower bound).  Either failure raises, modelled as the
`writeError` outcome. -/
def writeOutput (fs : FS) (name content : String) : WriteOutcome → FS × Option PDFError
  | .ok => (setFile fs name content, none)
  | .openFail => (fs, some .writeError)
  | .writeFail => (setFile fs name "", some .writeError)

/-- One page of an input document together with the decoder's possible
failure: `blocksResult = none` models `page.get_text("blocks")` raising for
that page. -/
structure PageSpec where
  width : ℚ
  blocksResult : Option (List Block)
  fullText : String
deriving DecidableEq

/-- The `Page` a `PageSpec` denotes when its block query succeeds. -/
def specPage (p : PageSpec) : Page :=
  ⟨p.width, p.blocksResult.getD [], p.fullText⟩

/-- One input document of a batch: its base name (the value of
`os.path.splitext(os.path.basename(pdf_file_path))[0]`), whether
`fitz.open` succeeds, its pages, and the outcome of the final write. -/
structure DocSpec where
  baseName : String
  openOk : Bool
  pages : List PageSpec
  writeOutcome : WriteOutcome
deriving DecidableEq

/-- The `for page in self.doc` loop of `process` with the decoder's
possible per-page failure: an extraction error raises out of
`extract_blocks` and aborts the loop immediately. -/
def pageLoop : List PageSpec → ConvState → Except PDFError ConvState
  | [], st => .ok st
  | p :: rest, st =>
    match p.blocksResult with
    | none => .error .fragmentError
    | some bs => pageLoop rest (processPageStep st ⟨p.width, bs, p.fullText⟩)

/-- `PDFToMarkdownConverter(pdf_file_path, md_folder_path)` followed by
`.process()`: open the document (`__init__` re-raises on failure), run the
page loop, then write `{base_name}.md` once.  Returns the resulting output
directory and the raised error, if any. -/
def processDoc (d : DocSpec) (fs : FS) : FS × Option PDFError :=
  if d.openOk then
    match pageLoop d.pages ⟨"", 1⟩ with
    | .error e => (fs, some e)
    | .ok st => writeOutput fs (d.baseName ++ ".md") st.md_text d.writeOutcome
  else (fs, some .openError)

/-- `FolderPDFConverter.process_all`: the `for pdf_file_path in pdf_files`
loop constructs a converter and processes each document.  There is no
`try`/`except` around the loop body, so the first raised error propagates
out of `process_all` and terminates the loop. -/
def process_all : List DocSpec → FS → FS × Option PDFError
  | [], fs => (fs, none)
  | d :: rest, fs =>
    match processDoc d fs with
    | (fs', none) => process_all rest fs'
    | (fs', some e) => (fs', some e)

/-- The midpoint test of `classify_columns`, as a Boolean predicate. -/
def isLeftBlock (page_width : ℚ) (b : Block) : Bool :=
  decide ((b.x0 + b.x1) / 2 < page_width / 2)

theorem classifyLoop_eq (page_width : ℚ) (blocks L R : List Block) :
    classifyLoop page_width blocks L R =
      (L ++ blocks.filter (isLeftBlock page_width),
       R ++ blocks.filter (fun b => !isLeftBlock page_width b)) := by
  induction blocks generalizing L R with
  | nil => simp [classifyLoop]
  | cons b rest ih =>
    by_cases h : (b.x0 + b.x1) / 2 < page_width / 2
    · simp [classifyLoop, h, ih, List.filter_cons, isLeftBlock]
    · simp [classifyLoop, h, ih, List.filter_cons, isLeftBlock]

theorem classify_columns_eq (blocks : List Block) (page_width : ℚ) :
    classify_columns blocks page_width =
      (blocks.filter (isLeftBlock page_width),
       blocks.filter (fun b => !isLeftBlock page_width b)) := by
  simpa [classify_columns] using classifyLoop_eq page_width blocks [] []

/-- C4.  Column classification: `classify_columns` sends each fragment to
exactly one group — the left group holds, in input order, exactly the
fragments with `(x0 + x1) / 2 < page_width / 2`, the right group holds, in
input order, exactly the remaining fragments (ties go right) — and the two
groups together are a permutation of the input, so the input is partitioned
with no loss or duplication. -/
theorem classify_columns_partition (blocks : List Block) (page_width : ℚ) :
    (classify_columns blocks page_width).1 =
        blocks.filter (fun b => decide ((b.x0 + b.x1) / 2 < page_width / 2)) ∧
    (classify_columns blocks page_width).2 =
        blocks.filter (fun b => !decide ((b.x0 + b.x1) / 2 < page_width / 2)) ∧
    ((classify_columns blocks page_width).1
        ++ (classify_columns blocks page_width).2).Perm blocks := by
  rw [classify_columns_eq]
  exact ⟨rfl, rfl, List.filter_append_perm (isLeftBlock page_width) blocks⟩

/-- C5.  Layout detection: a physical page takes the two-column branch —
that is, emits exactly two logical pages — if and only if the left group
and the right group of the classified extracted fragments each hold at
least 2 fragments; in every other case the page is treated as
single-column, emitting the one logical page built from the whole-page
text. -/
theorem pageLogical_two_column_iff (page : Page) (n : Nat) :
    ((pageLogical page n).1.length = 2 ↔
      (classify_columns (extract_blocks page.blocks) page.width).1.length ≥ 2 ∧
      (classify_columns (extract_blocks page.blocks) page.width).2.length ≥ 2) ∧
    ((pageLogical page n).1.length = 2 ∨
      (pageLogical page n).1 = [(n, pyStrip page.fullText)]) := by
  by_cases h : (classify_columns (extract_blocks page.blocks) page.width).1.length ≥ 2 ∧
      (classify_columns (extract_blocks page.blocks) page.width).2.length ≥ 2
  · simp [pageLogical, h]
  · simp [pageLogical, h]

/-- C9.  Extraction filter: `extract_blocks` returns exactly the input
fragments whose `block_no` is present, whose `block_type` is text (`0`) and
whose stripped text is non-empty; consequently every fragment that
`process` hands to `classify_columns` — hence every member of either
resulting column group — is a text fragment with non-empty stripped
text. -/
theorem extract_blocks_spec (rawBlocks : List Block) :
    (∀ b : Block, b ∈ extract_blocks rawBlocks ↔
      b ∈ rawBlocks ∧ b.block_no ≠ none ∧ b.block_type = 0 ∧ pyStrip b.text ≠ "") ∧
    (∀ page : Page, ∀ b : Block,
      (b ∈ (classify_columns (extract_blocks page.blocks) page.width).1 ∨
       b ∈ (classify_columns (extract_blocks page.blocks) page.width).2) →
      b.block_type = 0 ∧ pyStrip b.text ≠ "") := by
  have hmem : ∀ (l : List Block) (b : Block), b ∈ extract_blocks l ↔
      b ∈ l ∧ b.block_no ≠ none ∧ b.block_type = 0 ∧ pyStrip b.text ≠ "" := by
    intro l b
    simp [extract_blocks, List.mem_filter, Option.isSome_iff_ne_none, and_assoc]
  refine ⟨hmem rawBlocks, ?_⟩
  intro page b hb
  have hb' : b ∈ extract_blocks page.blocks := by
    rcases hb with hb | hb
    · rw [classify_columns_eq] at hb
      exact (List.mem_filter.mp hb).1
    · rw [classify_columns_eq] at hb
      exact (List.mem_filter.mp hb).1
  exact ⟨((hmem page.blocks b).mp hb').2.2.1, ((hmem page.blocks b).mp hb').2.2.2⟩

/-- C10.  Column-text joining: `join_block_texts` strips every fragment's
text, discards the fragments whose stripped text is empty, and joins the
remaining stripped texts with a single newline between consecutive ones;
in particular every joined component is non-empty. -/
theorem join_block_texts_spec (blocks : List Block) :
    join_block_texts blocks =
      joinNewline ((blocks.map (fun b => pyStrip b.text)).filter (fun t => t != "")) ∧
    ((blocks.map (fun b => pyStrip b.text)).filter (fun t => t != "")).all
      (fun t => t != "") = true := by
  constructor
  · rw [List.filter_map]
    rfl
  · simp only [List.all_eq_true]
    intro t ht
    exact (List.mem_filter.mp ht).2

/-- A concrete text block: left of centre on a 600-wide page, non-empty
text, numbered, of text type. -/
def blockW : Block := ⟨0, 0, 10, 10, "hello", some 0, 0⟩

/-- A concrete page holding just `blockW`. -/
def pageW : Page := ⟨600, [blockW], "hello"⟩

/-- Instance of `extract_blocks_spec`: `blockW` lands in the left column
group of `pageW`, and it is indeed a text block with non-empty stripped
text. -/
theorem extract_blocks_spec_witness :
    blockW.block_type = 0 ∧ pyStrip blockW.text ≠ "" := by
  refine (extract_blocks_spec pageW.blocks).2 pageW blockW (Or.inl ?_)
  rw [classify_columns_eq]
  refine List.mem_filter.mpr ⟨by decide, ?_⟩
  simp only [isLeftBlock, decide_eq_true_eq, blockW, pageW]
  norm_num

theorem blockLe_trans (a b c : Block) (h1 : blockLe a b = true) (h2 : blockLe b c = true) :
    blockLe a c = true := by
  simp only [blockLe, decide_eq_true_eq] at h1 h2 ⊢
  rcases h1 with h1 | ⟨h1e, h1x⟩ <;> rcases h2 with h2 | ⟨h2e, h2x⟩
  · exact Or.inl (h1.trans h2)
  · exact Or.inl (lt_of_lt_of_eq h1 h2e)
  · exact Or.inl (lt_of_eq_of_lt h1e h2)
  · exact Or.inr ⟨h1e.trans h2e, h1x.trans h2x⟩

theorem blockLe_total (a b : Block) : (blockLe a b || blockLe b a) = true := by
  simp only [blockLe, Bool.or_eq_true, decide_eq_true_eq]
  rcases lt_trichotomy a.y0 b.y0 with h | h | h
  · exact Or.inl (Or.inl h)
  · rcases le_total a.x0 b.x0 with hx | hx
    · exact Or.inl (Or.inr ⟨h, hx⟩)
    · exact Or.inr (Or.inr ⟨h.symm, hx⟩)
  · exact Or.inr (Or.inl h)

/-- C6.  Reading-order sort: `sort_blocks_reading_order` returns a
permutation of its input whose `(y0, x0)` pairs are lexicographically
non-decreasing (primary ascending `y0`, secondary ascending `x0`), and the
sort is stable — for every value of the key `(y0, x0)`, the subsequence of
fragments carrying exactly that key is unchanged, so fragments with
identical keys retain their relative input order. -/
theorem sort_blocks_reading_order_spec (blocks : List Block) :
    (sort_blocks_reading_order blocks).Perm blocks ∧
    (sort_blocks_reading_order blocks).Pairwise
      (fun a b => a.y0 < b.y0 ∨ (a.y0 = b.y0 ∧ a.x0 ≤ b.x0)) ∧
    ∀ y x : ℚ,
      (sort_blocks_reading_order blocks).filter (fun b => decide (b.y0 = y ∧ b.x0 = x)) =
        blocks.filter (fun b => decide (b.y0 = y ∧ b.x0 = x)) := by
  refine ⟨List.mergeSort_perm blocks blockLe, ?_, ?_⟩
  · have h := List.sorted_mergeSort blockLe_trans blockLe_total blocks
    exact h.imp (fun hab => by simpa [blockLe] using hab)
  · intro y x
    have hkey : ∀ a : Block, (fun b : Block => decide (b.y0 = y ∧ b.x0 = x)) a = true ↔
        a.y0 = y ∧ a.x0 = x := by
      intro a
      simp
    have hpw : (blocks.filter (fun b => decide (b.y0 = y ∧ b.x0 = x))).Pairwise
        (fun a b => blockLe a b = true) := by
      refine List.pairwise_of_forall_mem_list ?_
      intro a ha b hb
      have ha' := (hkey a).mp (List.mem_filter.mp ha).2
      have hb' := (hkey b).mp (List.mem_filter.mp hb).2
      simp only [blockLe, decide_eq_true_eq]
      exact Or.inr ⟨ha'.1.trans hb'.1.symm, le_of_eq (ha'.2.trans hb'.2.symm)⟩
    have hsub : (blocks.filter (fun b => decide (b.y0 = y ∧ b.x0 = x))).Sublist
        (blocks.mergeSort blockLe) :=
      List.sublist_mergeSort blockLe_trans blockLe_total hpw (List.filter_sublist blocks)
    have hself : (blocks.filter (fun b => decide (b.y0 = y ∧ b.x0 = x))).filter
        (fun b => decide (b.y0 = y ∧ b.x0 = x)) =
        blocks.filter (fun b => decide (b.y0 = y ∧ b.x0 = x)) :=
      List.filter_eq_self.mpr (fun a ha => (List.mem_filter.mp ha).2)
    have hsub2 := hsub.filter (fun b => decide (b.y0 = y ∧ b.x0 = x))
    rw [hself] at hsub2
    have hlen : ((blocks.mergeSort blockLe).filter
        (fun b => decide (b.y0 = y ∧ b.x0 = x))).length =
        (blocks.filter (fun b => decide (b.y0 = y ∧ b.x0 = x))).length :=
      ((List.mergeSort_perm blocks blockLe).filter
        (fun b => decide (b.y0 = y ∧ b.x0 = x))).length_eq
    exact (hsub2.eq_of_length hlen.symm).symm

theorem concatAll_append (l1 l2 : List String) :
    concatAll (l1 ++ l2) = concatAll l1 ++ concatAll l2 := by
  induction l1 with
  | nil => simp [concatAll]
  | cons s rest ih => simp [concatAll, ih, String.append_assoc]

theorem pageLogical_snd (page : Page) (n : Nat) :
    (pageLogical page n).2 = n + (pageLogical page n).1.length := by
  by_cases h : (classify_columns (extract_blocks page.blocks) page.width).1.length ≥ 2 ∧
      (classify_columns (extract_blocks page.blocks) page.width).2.length ≥ 2
  · simp [pageLogical, h]
  · simp [pageLogical, h]

theorem processPageStep_eq (st : ConvState) (page : Page) :
    processPageStep st page =
      ⟨st.md_text ++ concatAll ((pageLogical page st.page_number).1.map
          (fun lp => formatPage lp.1 lp.2)),
        (pageLogical page st.page_number).2⟩ := by
  by_cases h : (classify_columns (extract_blocks page.blocks) page.width).1.length ≥ 2 ∧
      (classify_columns (extract_blocks page.blocks) page.width).2.length ≥ 2
  · simp [processPageStep, pageLogical, h, concatAll, String.append_assoc, String.append_empty]
  · simp [processPageStep, pageLogical, h, concatAll, String.append_assoc, String.append_empty]

theorem foldl_processPageStep (pages : List Page) : ∀ st : ConvState,
    (pages.foldl processPageStep st).md_text =
      st.md_text ++ concatAll ((logicalPagesFrom pages st.page_number).map
        (fun lp => formatPage lp.1 lp.2)) ∧
    (pages.foldl processPageStep st).page_number =
      st.page_number + (logicalPagesFrom pages st.page_number).length := by
  induction pages with
  | nil =>
    intro st
    simp [logicalPagesFrom, concatAll]
  | cons pg rest ih =>
    intro st
    rw [List.foldl_cons, processPageStep_eq]
    obtain ⟨ih1, ih2⟩ := ih ⟨st.md_text ++ concatAll ((pageLogical pg st.page_number).1.map
        (fun lp => formatPage lp.1 lp.2)), (pageLogical pg st.page_number).2⟩
    constructor
    · rw [ih1]
      simp [logicalPagesFrom, List.map_append, concatAll_append, String.append_assoc]
    · rw [ih2]
      simp [logicalPagesFrom, pageLogical_snd pg st.page_number, Nat.add_assoc]

theorem logicalPagesFrom_numbers (pages : List Page) : ∀ n : Nat,
    (logicalPagesFrom pages n).map Prod.fst =
      List.range' n (logicalPagesFrom pages n).length := by
  induction pages with
  | nil =>
    intro n
    simp [logicalPagesFrom]
  | cons pg rest ih =>
    intro n
    by_cases h : (classify_columns (extract_blocks pg.blocks) pg.width).1.length ≥ 2 ∧
        (classify_columns (extract_blocks pg.blocks) pg.width).2.length ≥ 2
    · simp [logicalPagesFrom, pageLogical, h, ih, List.range'_succ, Nat.add_assoc]
    · simp [logicalPagesFrom, pageLogical, h, ih, List.range'_succ, Nat.add_assoc]

/-- C7.  Page numbering: the logical page counter starts at 1 and the
emitted logical page numbers form the gap-free, strictly increasing
sequence `1, 2, …, k` where `k` is the total number of logical pages (the
numbers are exactly `List.range' 1 k`), the final counter is `1 + k`, and
per physical page either two logical pages numbered `n` and `n + 1` are
emitted with the counter advanced to `n + 2` (two-column branch) or one
logical page numbered `n` is emitted with the counter advanced to `n + 1`
(single-column branch). -/
theorem logicalPages_numbering (pages : List Page) :
    (logicalPages pages).map Prod.fst = List.range' 1 (logicalPages pages).length ∧
    (processPages pages).page_number = 1 + (logicalPages pages).length ∧
    ∀ (page : Page) (n : Nat),
      ((pageLogical page n).1.map Prod.fst = [n, n + 1] ∧ (pageLogical page n).2 = n + 2) ∨
      ((pageLogical page n).1.map Prod.fst = [n] ∧ (pageLogical page n).2 = n + 1) := by
  refine ⟨logicalPagesFrom_numbers pages 1, ?_, ?_⟩
  · simpa [processPages, logicalPages] using (foldl_processPageStep pages ⟨"", 1⟩).2
  · intro page n
    by_cases h : (classify_columns (extract_blocks page.blocks) page.width).1.length ≥ 2 ∧
        (classify_columns (extract_blocks page.blocks) page.width).2.length ≥ 2
    · exact Or.inl (by simp [pageLogical, h])
    · exact Or.inr (by simp [pageLogical, h])

/-- C8.  Single-column path: a physical page not detected as two-column —
including a page with zero usable text fragments — emits exactly one
logical page whose body is the decoder's whole-page text stripped
(bypassing the filtered fragment pipeline), and the counter advances by
1. -/
theorem pageLogical_single_column (page : Page) (n : Nat)
    (h : ¬((classify_columns (extract_blocks page.blocks) page.width).1.length ≥ 2 ∧
           (classify_columns (extract_blocks page.blocks) page.width).2.length ≥ 2)) :
    pageLogical page n = ([(n, pyStrip page.fullText)], n + 1) := by
  simp [pageLogical, h]

/-- Instance of `pageLogical_single_column` at an empty page: one logical
page with empty body, counter advanced from 1 to 2. -/
theorem pageLogical_single_column_witness :
    pageLogical ⟨600, [], ""⟩ 1 = ([(1, "")], 2) := by
  have h := pageLogical_single_column ⟨600, [], ""⟩ 1 (by decide)
  rw [h]
  decide

theorem pageLoop_ok (ps : List PageSpec) : ∀ st : ConvState,
    (∀ p ∈ ps, p.blocksResult ≠ none) →
    pageLoop ps st = .ok ((ps.map specPage).foldl processPageStep st) := by
  induction ps with
  | nil =>
    intro st _
    simp [pageLoop]
  | cons p rest ih =>
    intro st hp
    rcases hb : p.blocksResult with _ | bs
    · exact absurd hb (hp p (List.mem_cons_self p rest))
    · have hsp : specPage p = ⟨p.width, bs, p.fullText⟩ := by
        simp [specPage, hb]
      simp [pageLoop, hb, hsp, ih _ (fun q hq => hp q (List.mem_cons_of_mem p hq))]

/-- A document whose `fitz.open` fails. -/
def badDoc : DocSpec := ⟨"bad", false, [], .ok⟩

/-- A well-formed document with one empty page that processes and writes
successfully. -/
def goodDoc : DocSpec := ⟨"good", true, [⟨600, some [], ""⟩], .ok⟩

/-- C1 counterexample: in the batch `[badDoc, goodDoc]` the first document
fails to open, `process_all` returns that error, and the second —
perfectly processable — document is never processed: no `good.md` is
written, even though processing `[goodDoc]` alone succeeds. -/
theorem process_all_not_independent :
    process_all [badDoc, goodDoc] [] = ([], some .openError) ∧
    fileExists (process_all [badDoc, goodDoc] []).1 "good.md" = false ∧
    process_all [goodDoc] [] = ([("good.md", "## ページ 1\n\n\n\n")], none) := by
  refine ⟨by decide, by decide, by decide⟩

/-- C1 (amended).  Batch abortion: `process_all` has no per-document error
handling — after any prefix of documents that processed successfully, the
first document that raises (open, fragment-extraction, or write error)
makes `process_all` re-raise that error and terminate; the documents after
the failing one are not processed, and only the outputs accumulated before
the failure remain. -/
theorem process_all_aborts (ds1 : List DocSpec) (d : DocSpec) (ds2 : List DocSpec)
    (fs1 : FS) (e : PDFError) : ∀ fs : FS,
    process_all ds1 fs = (fs1, none) →
    (processDoc d fs1).2 = some e →
    process_all (ds1 ++ d :: ds2) fs = ((processDoc d fs1).1, some e) := by
  induction ds1 with
  | nil =>
    intro fs h1 h2
    simp only [process_all] at h1
    have hfs : fs = fs1 := congrArg Prod.fst h1
    subst hfs
    rw [List.nil_append]
    simp only [process_all]
    rcases hpd : processDoc d fs with ⟨fs', r⟩
    rw [hpd] at h2
    simp only at h2
    subst h2
    simp
  | cons d0 rest ih =>
    intro fs h1 h2
    rw [List.cons_append]
    simp only [process_all] at h1 ⊢
    rcases hpd : processDoc d0 fs with ⟨fs', r⟩
    rw [hpd] at h1
    cases r with
    | none => exact ih fs' h1 h2
    | some e0 => simp at h1

/-- Instance of `process_all_aborts`: in the batch
`[goodDoc, badDoc, goodDoc]` the run stops at `badDoc`, keeping the first
document's output and never processing the trailing `goodDoc`. -/
theorem process_all_aborts_witness :
    process_all [goodDoc, badDoc, goodDoc] [] =
      ([("good.md", "## ページ 1\n\n\n\n")], some .openError) := by
  have h := process_all_aborts [goodDoc] badDoc [goodDoc]
      [("good.md", "## ページ 1\n\n\n\n")] .openError [] (by decide) (by decide)
  simp only [List.cons_append, List.nil_append] at h
  rw [h]
  decide

/-- C2 counterexample: the page-header literal in `process` is
`"## ページ "` (the f-string `f"## ページ {self.page_number}..."`), not
`"## Page "` — for a document with one empty page the accumulated buffer is
`"## ページ 1\n\n\n\n"`, which differs from the claimed
`"## Page 1\n\n\n\n"`. -/
theorem processPages_header_not_Page :
    (processPages [⟨600, [], ""⟩]).md_text = "## ページ 1\n\n\n\n" ∧
    (processPages [⟨600, [], ""⟩]).md_text ≠ "## Page 1\n\n\n\n" := by
  refine ⟨by decide, by decide⟩

/-- C2 (amended).  Output formatting: for every document that opens,
decodes and writes successfully, each emitted logical page contributes
exactly the block `"## ページ {number}\n\n{body}\n\n"`, and the
concatenation of these blocks in logical-page order is written to the one
file named `{source_base_name}.md` in the output directory. -/
theorem processDoc_output (d : DocSpec) (fs : FS) (h1 : d.openOk = true)
    (h2 : ∀ p ∈ d.pages, p.blocksResult ≠ none) (h3 : d.writeOutcome = .ok) :
    processDoc d fs =
      (setFile fs (d.baseName ++ ".md")
        (concatAll ((logicalPages (d.pages.map specPage)).map
          (fun lp => formatPage lp.1 lp.2))), none) := by
  have hpl := pageLoop_ok d.pages ⟨"", 1⟩ h2
  have hmd := (foldl_processPageStep (d.pages.map specPage) ⟨"", 1⟩).1
  simp only [processDoc, h1, hpl, h3]
  simp [writeOutput, hmd, logicalPages, String.empty_append]

/-- Instance of `processDoc_output` at `goodDoc`: the one file `good.md` is
written, holding the single block `"## ページ 1\n\n\n\n"`. -/
theorem processDoc_output_witness :
    processDoc goodDoc [] = ([("good.md", "## ページ 1\n\n\n\n")], none) := by
  have h := processDoc_output goodDoc [] (by decide) (by decide) (by decide)
  rw [h]
  decide

/-- A document whose pages process fine but whose final write fails after
the output file was opened (truncated) for writing. -/
def writeFailDoc : DocSpec := ⟨"doc", true, [⟨600, some [], ""⟩], .writeFail⟩

/-- C3 counterexample: when the write of `doc.md` fails after `open`
succeeded, the error is raised — but an output file for the document does
exist (the file truncated by `open(path, "w")`), contradicting the claim
that no output file exists after a write failure. -/
theorem processDoc_write_failure_file_exists :
    (processDoc writeFailDoc []).2 = some .writeError ∧
    fileExists (processDoc writeFailDoc []).1 "doc.md" = true := by
  refine ⟨by decide, by decide⟩

/-- C3 (amended).  Write failure: if persisting a document's output
artifact fails, the error is raised (not swallowed); the whole document is
assembled in memory and written by a single write call after all pages
succeed, so no file holding a proper partial subset of the pages is
produced — but an output file may still exist after the failure: either
`open` itself failed and the directory is unchanged, or the write after a
successful `open` failed and the truncated output file remains. -/
theorem processDoc_write_failure (d : DocSpec) (fs : FS) (h1 : d.openOk = true)
    (h2 : ∀ p ∈ d.pages, p.blocksResult ≠ none) (h3 : d.writeOutcome ≠ .ok) :
    (processDoc d fs).2 = some .writeError ∧
    ((processDoc d fs).1 = fs ∨
      (processDoc d fs).1 = setFile fs (d.baseName ++ ".md") "") := by
  have hpl := pageLoop_ok d.pages ⟨"", 1⟩ h2
  simp only [processDoc, h1, hpl]
  cases hw : d.writeOutcome with
  | ok => exact absurd hw h3
  | openFail => simp [writeOutput]
  | writeFail => simp [writeOutput]

/-- Instance of `processDoc_write_failure` at `writeFailDoc`. -/
theorem processDoc_write_failure_witness :
    (processDoc writeFailDoc []).2 = some .writeError ∧
    ((processDoc writeFailDoc []).1 = [] ∨
      (processDoc writeFailDoc []).1 = setFile [] ("doc" ++ ".md") "") :=
  processDoc_write_failure writeFailDoc [] (by decide) (by decide) (by decide)

end Preprocess
